import Mathlib

/-!
Shallow embedding of the OraculusBot submission-scoring-and-ranking core
(oraculus_bot.py) together with theorems checking its natural-language
specification.  Scores and timestamps are modelled as rationals, database
tables as lists of records, and Python exceptions as Except values caught
at the workflow boundary.
-/

namespace Oraculus

/-- One entry of the configured gain_thresholds list:
a minimum score and the category label it grants. -/
structure Threshold where
  min_score : ℚ
  category : String
deriving DecidableEq

/-- Stable descending sort on a rational key, mirroring Python
sorted(..., key=..., reverse=True): ties keep their original order. -/
def sortDescBy (key : α → ℚ) (l : List α) : List α :=
  List.insertionSort (fun a b => key b ≤ key a) l

theorem sortDescBy_perm (key : α → ℚ) (l : List α) :
    List.Perm (sortDescBy key l) l :=
  List.perm_insertionSort _ l

theorem sortDescBy_sorted (key : α → ℚ) (l : List α) :
    (sortDescBy key l).Pairwise (fun a b => key b ≤ key a) := by
  haveI : IsTotal α (fun a b => key b ≤ key a) :=
    ⟨fun a b => le_total (key b) (key a)⟩
  haveI : IsTrans α (fun a b => key b ≤ key a) :=
    ⟨fun a b c h1 h2 => le_trans h2 h1⟩
  exact List.sorted_insertionSort _ l

/-- Scan of a list in its given order keeping, among the elements whose key
is at most the bound, the earliest one with the maximal key. -/
def bestQual (key : α → ℚ) (bound : ℚ) : List α → Option α
  | [] => none
  | t :: ts =>
    if key t ≤ bound then
      match bestQual key bound ts with
      | none => some t
      | some b => if key t < key b then some b else some t
    else bestQual key bound ts

theorem find_orderedInsert_neg (key : α → ℚ) (bound : ℚ) (x : α) (l : List α)
    (hx : ¬ key x ≤ bound) :
    (List.orderedInsert (fun a b => key b ≤ key a) x l).find?
        (fun t => decide (key t ≤ bound)) =
      l.find? (fun t => decide (key t ≤ bound)) := by
  induction l with
  | nil => simp [List.orderedInsert, List.find?, hx]
  | cons y ys ih =>
    by_cases hxy : key y ≤ key x
    · simp [List.orderedInsert, hxy, List.find?, hx]
    · by_cases hy : key y ≤ bound
      · simp [List.orderedInsert, hxy, List.find?, hy]
      · simp [List.orderedInsert, hxy, List.find?, hy, ih]

theorem find_orderedInsert_pos (key : α → ℚ) (bound : ℚ) (x : α) (l : List α)
    (hx : key x ≤ bound) :
    (List.orderedInsert (fun a b => key b ≤ key a) x l).find?
        (fun t => decide (key t ≤ bound)) =
      match l.find? (fun t => decide (key t ≤ bound)) with
      | none => some x
      | some y => if key y ≤ key x then some x else some y := by
  induction l with
  | nil => simp [List.orderedInsert, List.find?, hx]
  | cons y ys ih =>
    by_cases hxy : key y ≤ key x
    · have hy : key y ≤ bound := le_trans hxy hx
      simp [List.orderedInsert, hxy, List.find?, hx, hy]
    · by_cases hy : key y ≤ bound
      · simp [List.orderedInsert, hxy, List.find?, hy]
      · simp [List.orderedInsert, hxy, List.find?, hy, ih]

theorem find_sortDescBy (key : α → ℚ) (bound : ℚ) (l : List α) :
    (sortDescBy key l).find? (fun t => decide (key t ≤ bound)) =
      bestQual key bound l := by
  induction l with
  | nil => simp [sortDescBy, List.insertionSort, List.find?, bestQual]
  | cons x xs ih =>
    show (List.orderedInsert _ x (sortDescBy key xs)).find? _ = _
    by_cases hx : key x ≤ bound
    · rw [find_orderedInsert_pos key bound x _ hx, ih]
      rcases hb : bestQual key bound xs with _ | b
      · simp [bestQual, hx, hb]
      · rcases le_or_lt (key b) (key x) with hcmp | hcmp
        · simp [bestQual, hx, hb, hcmp, not_lt.mpr hcmp]
        · simp [bestQual, hx, hb, hcmp, not_le.mpr hcmp]
    · rw [find_orderedInsert_neg key bound x _ hx, ih]
      simp [bestQual, hx]

theorem bestQual_eq_none_iff (key : α → ℚ) (bound : ℚ) (l : List α) :
    bestQual key bound l = none ↔ ∀ t ∈ l, bound < key t := by
  induction l with
  | nil => simp [bestQual]
  | cons x xs ih =>
    by_cases hx : key x ≤ bound
    · constructor
      · intro h
        exfalso
        simp only [bestQual, if_pos hx] at h
        rcases hb : bestQual key bound xs with _ | b <;> simp only [hb] at h
        · exact Option.noConfusion h
        · rcases lt_or_le (key x) (key b) with hcmp | hcmp
          · rw [if_pos hcmp] at h
            exact Option.noConfusion h
          · rw [if_neg (not_lt.mpr hcmp)] at h
            exact Option.noConfusion h
      · intro h
        exact absurd hx (not_le.mpr (h x (List.mem_cons_self x xs)))
    · simp only [bestQual, if_neg hx]
      rw [ih]
      constructor
      · intro h t ht
        rcases List.mem_cons.mp ht with rfl | ht
        · exact not_le.mp hx
        · exact h t ht
      · intro h t ht
        exact h t (List.mem_cons_of_mem _ ht)

theorem bestQual_spec (key : α → ℚ) (bound : ℚ) (l : List α) :
    ∀ b, bestQual key bound l = some b →
      b ∈ l ∧ key b ≤ bound ∧
        (∀ t ∈ l, key t ≤ bound → key t ≤ key b) ∧
        l.find? (fun t => decide (key t = key b)) = some b := by
  induction l with
  | nil =>
    intro b hb
    simp [bestQual] at hb
  | cons x xs ih =>
    intro b hb
    by_cases hx : key x ≤ bound
    · rcases hc : bestQual key bound xs with _ | c
      · simp only [bestQual, if_pos hx, hc] at hb
        injection hb with hb
        subst hb
        have hall : ∀ t ∈ xs, bound < key t :=
          (bestQual_eq_none_iff key bound xs).mp hc
        refine ⟨List.mem_cons_self _ _, hx, ?_, ?_⟩
        · intro t ht hle
          rcases List.mem_cons.mp ht with rfl | ht
          · exact le_refl _
          · exact absurd hle (not_le.mpr (hall t ht))
        · simp [List.find?]
      · simp only [bestQual, if_pos hx, hc] at hb
        obtain ⟨hcmem, hcle, hcmax, hcfind⟩ := ih c hc
        rcases lt_or_le (key x) (key c) with hcmp | hcmp
        · rw [if_pos hcmp] at hb
          injection hb with hb
          subst hb
          refine ⟨List.mem_cons_of_mem _ hcmem, hcle, ?_, ?_⟩
          · intro t ht hle
            rcases List.mem_cons.mp ht with rfl | ht
            · exact le_of_lt hcmp
            · exact hcmax t ht hle
          · have hne : key x ≠ key c := ne_of_lt hcmp
            simp [List.find?, hne, hcfind]
        · rw [if_neg (not_lt.mpr hcmp)] at hb
          injection hb with hb
          subst hb
          refine ⟨List.mem_cons_self _ _, hx, ?_, ?_⟩
          · intro t ht hle
            rcases List.mem_cons.mp ht with rfl | ht
            · exact le_refl _
            · exact le_trans (hcmax t ht hle) hcmp
          · simp [List.find?]
    · simp only [bestQual, if_neg hx] at hb
      obtain ⟨hmem, hle, hmax, hfind⟩ := ih b hb
      refine ⟨List.mem_cons_of_mem _ hmem, hle, ?_, ?_⟩
      · intro t ht htle
        rcases List.mem_cons.mp ht with rfl | ht
        · exact absurd htle hx
        · exact hmax t ht htle
      · have hne : key x ≠ key b := by
          intro heq
          exact hx (heq ▸ hle)
        simp [List.find?, hne, hfind]

/-- Embedding of OraculusBot.get_threshold_category: walk the thresholds in
stable descending min_score order and return the first category whose
min_score is at most the score; if none qualifies, fall back to the LAST
threshold of the CONFIGURED list (Python thresholds[-1]).  Returns none
exactly when the configured list is empty (Python raises IndexError). -/
def get_threshold_category (thresholds : List Threshold) (score : ℚ) :
    Option String :=
  match (sortDescBy (fun t => t.min_score) thresholds).find?
      (fun t => decide (t.min_score ≤ score)) with
  | some t => some t.category
  | none => thresholds.getLast?.map (fun t => t.category)

/-- C2 (amended): for every threshold configuration in arbitrary order,
classify returns the category of the qualifying threshold with the maximal
min_score, and among equal min_scores the earliest configured one wins
(stable sort); when the score is below every min_score it returns the
category of the LAST threshold in the CONFIGURED order (not the one with
the lowest min_score). -/
theorem get_threshold_category_correct (ts : List Threshold) (score : ℚ)
    (h : ts ≠ []) :
    (∃ b ∈ ts, b.min_score ≤ score ∧
        (∀ t ∈ ts, t.min_score ≤ score → t.min_score ≤ b.min_score) ∧
        ts.find? (fun t => decide (t.min_score = b.min_score)) = some b ∧
        get_threshold_category ts score = some b.category) ∨
      ((∀ t ∈ ts, score < t.min_score) ∧
        get_threshold_category ts score = some (ts.getLast h).category) := by
  have hkey := find_sortDescBy (fun t : Threshold => t.min_score) score ts
  rcases hb : bestQual (fun t : Threshold => t.min_score) score ts with _ | b
  · right
    refine ⟨(bestQual_eq_none_iff _ _ _).mp hb, ?_⟩
    unfold get_threshold_category
    rw [hkey, hb, List.getLast?_eq_getLast ts h]
    rfl
  · left
    obtain ⟨hmem, hle, hmax, hfind⟩ := bestQual_spec _ _ _ b hb
    refine ⟨b, hmem, hle, hmax, hfind, ?_⟩
    unfold get_threshold_category
    rw [hkey, hb]

/-- C2 witness: the spec's own example configuration at score 75 lands in
the qualifying branch with category good. -/
theorem get_threshold_category_correct_witness :
    ∃ b ∈ ([⟨100, "excellent"⟩, ⟨50, "good"⟩, ⟨0, "basic"⟩] : List Threshold),
      b.min_score ≤ 75 ∧
      (∀ t ∈ ([⟨100, "excellent"⟩, ⟨50, "good"⟩, ⟨0, "basic"⟩] : List Threshold),
        t.min_score ≤ 75 → t.min_score ≤ b.min_score) ∧
      ([⟨100, "excellent"⟩, ⟨50, "good"⟩, ⟨0, "basic"⟩] : List Threshold).find?
        (fun t => decide (t.min_score = b.min_score)) = some b ∧
      get_threshold_category [⟨100, "excellent"⟩, ⟨50, "good"⟩, ⟨0, "basic"⟩] 75 =
        some b.category :=
  (get_threshold_category_correct
    [⟨100, "excellent"⟩, ⟨50, "good"⟩, ⟨0, "basic"⟩] 75 (by decide)).resolve_right
    (by decide)

/-- Configured gain matrix: one signed rational coefficient per
confusion-matrix cell. -/
structure GainMatrix where
  tp : ℚ
  tn : ℚ
  fp : ℚ
  fn : ℚ
deriving DecidableEq

/-- One row of the master CSV: identifier, binary class, dataset tag
(the strings public and private select the two partitions). -/
structure MasterRecord where
  id : ℤ
  clase_binaria : ℤ
  dataset : String
deriving DecidableEq

/-- Rows of the master table whose dataset tag is public. -/
def public_df (master : List MasterRecord) : List MasterRecord :=
  master.filter (fun r => decide (r.dataset = "public"))

/-- Rows of the master table whose dataset tag is private. -/
def private_df (master : List MasterRecord) : List MasterRecord :=
  master.filter (fun r => decide (r.dataset = "private"))

/-- Set of every identifier of the master table, used to validate
submissions. -/
def all_ids (master : List MasterRecord) : Finset ℤ :=
  (master.map (fun r => r.id)).toFinset

/-- Result record of calculate_score_for_dataset: weighted score and the
four confusion counts. -/
structure ScoreResult where
  score : ℚ
  tp : ℕ
  tn : ℕ
  fp : ℕ
  fn : ℕ
deriving DecidableEq

/-- Pairs (true label, predicted label) built exactly like the code: the
predicted label is 1 when the identifier lies in the predicted-positive
set and 0 otherwise. -/
def confusionPairs (predicted : Finset ℤ) (ds : List MasterRecord) :
    List (ℤ × ℤ) :=
  ds.map (fun r => (r.clase_binaria, if r.id ∈ predicted then 1 else 0))

/-- Embedding of calculate_score_for_dataset: an empty dataset returns the
all-zero result; otherwise the sklearn confusion matrix restricted to
labels 0 and 1 is unravelled in the order (tn, fp, fn, tp) and combined
with the gain matrix.  Rows whose true label is neither 0 nor 1 are
counted in no cell, as sklearn does with an explicit labels list. -/
def calculate_score_for_dataset (gm : GainMatrix) (predicted : Finset ℤ)
    (ds : List MasterRecord) : ScoreResult :=
  if ds.length = 0 then ⟨0, 0, 0, 0, 0⟩
  else
    let pairs := confusionPairs predicted ds
    let tn := pairs.countP (fun p => decide (p = (0, 0)))
    let fp := pairs.countP (fun p => decide (p = (0, 1)))
    let fn := pairs.countP (fun p => decide (p = (1, 0)))
    let tp := pairs.countP (fun p => decide (p = (1, 1)))
    ⟨(tp : ℚ) * gm.tp + (tn : ℚ) * gm.tn + (fp : ℚ) * gm.fp + (fn : ℚ) * gm.fn,
      tp, tn, fp, fn⟩

/-- Embedding of calculate_scores: the same predicted set is scored once
against the public partition and once against the private one. -/
def calculate_scores (gm : GainMatrix) (master : List MasterRecord)
    (predicted : Finset ℤ) : ScoreResult × ScoreResult :=
  (calculate_score_for_dataset gm predicted (public_df master),
    calculate_score_for_dataset gm predicted (private_df master))

theorem countP_confusionPairs (predicted : Finset ℤ) (ds : List MasterRecord)
    (a b : ℤ) (hb : b = 0 ∨ b = 1) :
    (confusionPairs predicted ds).countP (fun p => decide (p = (a, b))) =
      ds.countP (fun r =>
        decide (r.clase_binaria = a ∧ (r.id ∈ predicted ↔ b = 1))) := by
  unfold confusionPairs
  rw [List.countP_map]
  refine List.countP_congr (fun r _ => ?_)
  simp only [Function.comp, decide_eq_true_eq, Prod.mk.injEq]
  by_cases hmem : r.id ∈ predicted
  · rcases hb with rfl | rfl <;> simp [hmem]
  · rcases hb with rfl | rfl <;> simp [hmem]

/-- C4: the score over a partition classifies an identifier positive
exactly when it lies in the predicted set, the four counts are the
(tn, fp, fn, tp) confusion cells, the score is the gain-weighted sum of
them, an empty partition yields the all-zero result, and the empty
predicted set gives tp = fp = 0 with tn + fn equal to the partition
size. -/
theorem calculate_score_for_dataset_correct (gm : GainMatrix)
    (predicted : Finset ℤ) (ds : List MasterRecord)
    (hbin : ∀ r ∈ ds, r.clase_binaria = 0 ∨ r.clase_binaria = 1) :
    (calculate_score_for_dataset gm predicted ds).tp =
        ds.countP (fun r => decide (r.clase_binaria = 1 ∧ r.id ∈ predicted)) ∧
      (calculate_score_for_dataset gm predicted ds).tn =
        ds.countP (fun r => decide (r.clase_binaria = 0 ∧ r.id ∉ predicted)) ∧
      (calculate_score_for_dataset gm predicted ds).fp =
        ds.countP (fun r => decide (r.clase_binaria = 0 ∧ r.id ∈ predicted)) ∧
      (calculate_score_for_dataset gm predicted ds).fn =
        ds.countP (fun r => decide (r.clase_binaria = 1 ∧ r.id ∉ predicted)) ∧
      (calculate_score_for_dataset gm predicted ds).score =
        ((calculate_score_for_dataset gm predicted ds).tp : ℚ) * gm.tp +
          ((calculate_score_for_dataset gm predicted ds).tn : ℚ) * gm.tn +
          ((calculate_score_for_dataset gm predicted ds).fp : ℚ) * gm.fp +
          ((calculate_score_for_dataset gm predicted ds).fn : ℚ) * gm.fn ∧
      (ds = [] → calculate_score_for_dataset gm predicted ds = ⟨0, 0, 0, 0, 0⟩) ∧
      (predicted = ∅ →
        (calculate_score_for_dataset gm predicted ds).tp = 0 ∧
          (calculate_score_for_dataset gm predicted ds).fp = 0 ∧
          (calculate_score_for_dataset gm predicted ds).tn +
              (calculate_score_for_dataset gm predicted ds).fn = ds.length) := by
  rcases hds : ds with _ | ⟨d, ds2⟩
  · subst hds
    simp [calculate_score_for_dataset]
  rw [← hds]
  have hne : ¬ ds.length = 0 := by
    rw [hds]
    simp
  have htp := countP_confusionPairs predicted ds 1 1 (Or.inr rfl)
  have htn := countP_confusionPairs predicted ds 0 0 (Or.inl rfl)
  have hfp := countP_confusionPairs predicted ds 0 1 (Or.inr rfl)
  have hfn := countP_confusionPairs predicted ds 1 0 (Or.inl rfl)
  have e1 : (calculate_score_for_dataset gm predicted ds).tp =
      ds.countP (fun r => decide (r.clase_binaria = 1 ∧ r.id ∈ predicted)) := by
    simp only [calculate_score_for_dataset, if_neg hne, htp]
    refine List.countP_congr (fun r _ => ?_)
    simp
  have e2 : (calculate_score_for_dataset gm predicted ds).tn =
      ds.countP (fun r => decide (r.clase_binaria = 0 ∧ r.id ∉ predicted)) := by
    simp only [calculate_score_for_dataset, if_neg hne, htn]
    refine List.countP_congr (fun r _ => ?_)
    simp
  have e3 : (calculate_score_for_dataset gm predicted ds).fp =
      ds.countP (fun r => decide (r.clase_binaria = 0 ∧ r.id ∈ predicted)) := by
    simp only [calculate_score_for_dataset, if_neg hne, hfp]
    refine List.countP_congr (fun r _ => ?_)
    simp
  have e4 : (calculate_score_for_dataset gm predicted ds).fn =
      ds.countP (fun r => decide (r.clase_binaria = 1 ∧ r.id ∉ predicted)) := by
    simp only [calculate_score_for_dataset, if_neg hne, hfn]
    refine List.countP_congr (fun r _ => ?_)
    simp
  refine ⟨e1, e2, e3, e4, ?_, ?_, ?_⟩
  · simp only [calculate_score_for_dataset, if_neg hne]
  · intro h
    rw [h] at hne
    simp at hne
  · intro hpred
    refine ⟨?_, ?_, ?_⟩
    · rw [e1, hpred]
      simp [List.countP_eq_zero]
    · rw [e3, hpred]
      simp [List.countP_eq_zero]
    · rw [e2, e4, hpred]
      have := List.length_eq_countP_add_countP
        (fun r : MasterRecord => decide (r.clase_binaria = 0)) (l := ds)
      rw [this]
      congr 1
      · refine List.countP_congr (fun r hr => ?_)
        simp
      · refine List.countP_congr (fun r hr => ?_)
        rcases hbin r hr with h | h <;> simp [h]

/-- C4 witness: the spec's end-to-end example (labels {1:1, 2:0, 3:1, 4:0},
predicted positives {1, 3}) instantiates the characterization. -/
theorem calculate_score_for_dataset_correct_witness :
    (calculate_score_for_dataset ⟨1, 1, -1, -1⟩ ({1, 3} : Finset ℤ)
        [⟨1, 1, "public"⟩, ⟨2, 0, "public"⟩, ⟨3, 1, "public"⟩,
          ⟨4, 0, "public"⟩]).tp =
      List.countP
        (fun r => decide (r.clase_binaria = 1 ∧ r.id ∈ ({1, 3} : Finset ℤ)))
        ([⟨1, 1, "public"⟩, ⟨2, 0, "public"⟩, ⟨3, 1, "public"⟩,
          ⟨4, 0, "public"⟩] : List MasterRecord) :=
  (calculate_score_for_dataset_correct ⟨1, 1, -1, -1⟩ ({1, 3} : Finset ℤ)
    [⟨1, 1, "public"⟩, ⟨2, 0, "public"⟩, ⟨3, 1, "public"⟩, ⟨4, 0, "public"⟩]
    (by decide)).1

/-- One row of the submissions table. -/
structure Submission where
  id : ℤ
  user_id : ℤ
  user_email : String
  user_full_name : String
  submission_name : String
  timestamp : ℚ
  file_checksum : String
  file_path : String
  public_score : ℚ
  private_score : ℚ
  tp : ℕ
  tn : ℕ
  fp : ℕ
  fn : ℕ
  positives_predicted : ℕ
  threshold_category : String
  is_selected : Bool
deriving DecidableEq

/-- First UPDATE of process_select: clear is_selected on every submission
owned by the user. -/
def clear_selection (uid : ℤ) (subs : List Submission) : List Submission :=
  subs.map (fun s =>
    if s.user_id = uid then { s with is_selected := false } else s)

/-- Second UPDATE of process_select: set is_selected on the submission with
the given id owned by the user. -/
def mark_selection (uid sid : ℤ) (subs : List Submission) : List Submission :=
  subs.map (fun s =>
    if s.id = sid ∧ s.user_id = uid then { s with is_selected := true } else s)

/-- Store-level embedding of process_select: when no submission with the
given id belongs to the user, the store is returned unchanged with a
not-found flag; otherwise the clear and the set are applied inside one
transaction, modelled as a single state transition. -/
def select (subs : List Submission) (uid sid : ℤ) :
    List Submission × Bool :=
  if subs.any (fun s => decide (s.id = sid ∧ s.user_id = uid)) then
    (mark_selection uid sid (clear_selection uid subs), true)
  else (subs, false)

theorem countP_map_congr (l : List α) (f : α → β) (p : β → Bool) (q : α → Bool)
    (h : ∀ a ∈ l, p (f a) = q a) :
    (l.map f).countP p = l.countP q := by
  rw [List.countP_map]
  refine List.countP_congr (fun a ha => ?_)
  rw [Function.comp_apply, h a ha]

theorem select_success_form (subs : List Submission) (uid sid : ℤ)
    (h : subs.any (fun s => decide (s.id = sid ∧ s.user_id = uid))) :
    (select subs uid sid).1 = subs.map (fun s =>
      if s.user_id = uid then { s with is_selected := decide (s.id = sid) }
      else s) := by
  unfold select
  rw [if_pos h]
  show (clear_selection uid subs).map _ = _
  unfold clear_selection
  rw [List.map_map]
  refine List.map_congr_left (fun s _ => ?_)
  by_cases hu : s.user_id = uid
  · by_cases hi : s.id = sid
    · simp [Function.comp, hu, hi]
    · simp [Function.comp, hu, hi]
  · by_cases hi : s.id = sid
    · simp [Function.comp, hu, hi]
    · simp [Function.comp, hu, hi]

theorem select_flag_false_iff (subs : List Submission) (uid sid : ℤ) :
    (select subs uid sid).2 = false ↔
      ∀ s ∈ subs, ¬(s.id = sid ∧ s.user_id = uid) := by
  by_cases hfound : subs.any (fun s => decide (s.id = sid ∧ s.user_id = uid))
  · have hflag : (select subs uid sid).2 = true := by
      unfold select
      rw [if_pos hfound]
    rw [hflag]
    simp only [Bool.true_eq_false, false_iff, not_forall]
    rcases List.any_eq_true.mp hfound with ⟨s, hs, hp⟩
    exact ⟨s, hs, by simpa using hp⟩
  · have hflag : (select subs uid sid).2 = false := by
      unfold select
      rw [if_neg hfound]
    rw [hflag]
    simp only [true_iff]
    intro s hs hp
    exact hfound (List.any_eq_true.mpr ⟨s, hs, by simpa using hp⟩)

theorem select_flag_false_state (subs : List Submission) (uid sid : ℤ)
    (hf : (select subs uid sid).2 = false) :
    (select subs uid sid).1 = subs := by
  by_cases hfound : subs.any (fun s => decide (s.id = sid ∧ s.user_id = uid))
  · exfalso
    unfold select at hf
    rw [if_pos hfound] at hf
    exact Bool.noConfusion hf
  · unfold select
    rw [if_neg hfound]

theorem select_found_of_flag (subs : List Submission) (uid sid : ℤ)
    (hf : (select subs uid sid).2 = true) :
    subs.any (fun s => decide (s.id = sid ∧ s.user_id = uid)) = true := by
  by_cases hfound : subs.any (fun s => decide (s.id = sid ∧ s.user_id = uid))
  · exact hfound
  · exfalso
    unfold select at hf
    rw [if_neg hfound] at hf
    exact Bool.noConfusion hf

theorem select_ids (subs : List Submission) (uid sid : ℤ) :
    (select subs uid sid).1.map (fun s => s.id) = subs.map (fun s => s.id) := by
  by_cases hfound : subs.any (fun s => decide (s.id = sid ∧ s.user_id = uid))
  · rw [select_success_form subs uid sid hfound, List.map_map]
    refine List.map_congr_left (fun s _ => ?_)
    by_cases hu : s.user_id = uid <;> simp [Function.comp, hu]
  · unfold select
    rw [if_neg hfound]

theorem select_count_one (subs : List Submission) (uid sid : ℤ)
    (hids : (subs.map (fun s => s.id)).Nodup)
    (hf : (select subs uid sid).2 = true) :
    (select subs uid sid).1.countP
      (fun s => decide (s.user_id = uid ∧ s.is_selected)) = 1 := by
  have hfound := select_found_of_flag subs uid sid hf
  have hform := select_success_form subs uid sid hfound
  have hcount : (select subs uid sid).1.countP
      (fun s => decide (s.user_id = uid ∧ s.is_selected)) =
        subs.countP (fun s => decide (s.id = sid ∧ s.user_id = uid)) := by
    rw [hform]
    refine countP_map_congr subs _ _ _ (fun s _ => ?_)
    by_cases hu : s.user_id = uid
    · by_cases hi : s.id = sid <;> simp [hu, hi]
    · simp [hu]
  rw [hcount]
  have hle : subs.countP
      (fun s => decide (s.id = sid ∧ s.user_id = uid)) ≤
        subs.countP (fun s => decide (s.id = sid)) := by
    refine List.countP_mono_left (fun s _ h => ?_)
    simp only [decide_eq_true_eq] at h ⊢
    exact h.1
  have hone : subs.countP (fun s => decide (s.id = sid)) ≤ 1 := by
    have hc : (subs.map (fun s => s.id)).countP (fun x => x == sid) =
        subs.countP (fun s => decide (s.id = sid)) :=
      countP_map_congr subs _ _ _ (fun a _ => rfl)
    rw [← hc]
    exact List.nodup_iff_count_le_one.mp hids sid
  have hpos : 0 < subs.countP
      (fun s => decide (s.id = sid ∧ s.user_id = uid)) := by
    rcases List.any_eq_true.mp hfound with ⟨s, hs, hp⟩
    exact List.countP_pos_iff.mpr ⟨s, hs, hp⟩
  omega

theorem select_selected_iff (subs : List Submission) (uid sid : ℤ)
    (hf : (select subs uid sid).2 = true) :
    ∀ s ∈ (select subs uid sid).1, s.user_id = uid →
      (s.is_selected ↔ s.id = sid) := by
  have hfound := select_found_of_flag subs uid sid hf
  have hform := select_success_form subs uid sid hfound
  intro s hs hu
  rw [hform] at hs
  rcases List.mem_map.mp hs with ⟨s0, hs0, rfl⟩
  by_cases hu0 : s0.user_id = uid
  · by_cases hi : s0.id = sid <;> simp [hu0, hi]
  · rw [if_neg hu0] at hu
    exact absurd hu hu0

theorem select_other_users (subs : List Submission) (uid sid : ℤ) :
    ∀ s, s.user_id ≠ uid → ((s ∈ (select subs uid sid).1) ↔ s ∈ subs) := by
  intro s hs
  by_cases hfound : subs.any (fun s => decide (s.id = sid ∧ s.user_id = uid))
  · have hform := select_success_form subs uid sid hfound
    rw [hform]
    constructor
    · intro hmem
      rcases List.mem_map.mp hmem with ⟨s0, hs0, heq⟩
      by_cases hu0 : s0.user_id = uid
      · rw [if_pos hu0] at heq
        exfalso
        apply hs
        rw [← heq]
        exact hu0
      · rw [if_neg hu0] at heq
        exact heq ▸ hs0
    · intro hmem
      refine List.mem_map.mpr ⟨s, hmem, ?_⟩
      rw [if_neg hs]
  · unfold select
    rw [if_neg hfound]

/-- C3: select fails (leaving every row unchanged) exactly when the user
owns no submission with the requested id; on success the clear and the
set act as one unit after which exactly one submission of the user is
selected, namely the target, rows of other users are untouched, and after
two successive successful selects exactly one of the two targets remains
selected for the user. -/
theorem select_correct (subs : List Submission) (uid sid : ℤ)
    (hids : (subs.map (fun s => s.id)).Nodup) :
    ((select subs uid sid).2 = false ↔
        ∀ s ∈ subs, ¬(s.id = sid ∧ s.user_id = uid)) ∧
      ((select subs uid sid).2 = false → (select subs uid sid).1 = subs) ∧
      ((select subs uid sid).2 = true →
        (select subs uid sid).1.countP
            (fun s => decide (s.user_id = uid ∧ s.is_selected)) = 1 ∧
          (∀ s ∈ (select subs uid sid).1, s.user_id = uid →
            (s.is_selected ↔ s.id = sid)) ∧
          (∀ s, s.user_id ≠ uid →
            ((s ∈ (select subs uid sid).1) ↔ s ∈ subs))) ∧
      (∀ b, (select subs uid sid).2 = true →
        (select (select subs uid sid).1 uid b).2 = true →
        (select (select subs uid sid).1 uid b).1.countP
          (fun s => decide (s.user_id = uid ∧ s.is_selected ∧
            (s.id = sid ∨ s.id = b))) = 1) := by
  refine ⟨select_flag_false_iff subs uid sid,
    select_flag_false_state subs uid sid,
    fun hf => ⟨select_count_one subs uid sid hids hf,
      select_selected_iff subs uid sid hf,
      select_other_users subs uid sid⟩, ?_⟩
  intro b _ h2
  have hids1 : ((select subs uid sid).1.map (fun s => s.id)).Nodup := by
    rw [select_ids subs uid sid]
    exact hids
  have hcnt := select_count_one (select subs uid sid).1 uid b hids1 h2
  have hchar := select_selected_iff (select subs uid sid).1 uid b h2
  have hcongr : (select (select subs uid sid).1 uid b).1.countP
      (fun s => decide (s.user_id = uid ∧ s.is_selected ∧
        (s.id = sid ∨ s.id = b))) =
      (select (select subs uid sid).1 uid b).1.countP
        (fun s => decide (s.user_id = uid ∧ s.is_selected)) := by
    refine List.countP_congr (fun s hs => ?_)
    simp only [decide_eq_true_eq]
    constructor
    · intro h
      exact ⟨h.1, h.2.1⟩
    · intro h
      refine ⟨h.1, h.2, Or.inr ?_⟩
      exact (hchar s hs h.1).mp h.2
  rw [hcongr, hcnt]

/-- Submission fixture used by concrete witness instances. -/
def mkSub (i uid : ℤ) (pub priv : ℚ) (sel : Bool) : Submission :=
  ⟨i, uid, "u@example.com", "User", "model", 0, "chk", "path", pub, priv,
    0, 0, 0, 0, 0, "basic", sel⟩

/-- C3 witness: in a store with two submissions of user 7, selecting id 2
succeeds and leaves exactly one selected submission for the user. -/
theorem select_correct_witness :
    (select [mkSub 1 7 10 20 false, mkSub 2 7 11 21 false] 7 2).1.countP
      (fun s => decide (s.user_id = 7 ∧ s.is_selected)) = 1 :=
  ((select_correct [mkSub 1 7 10 20 false, mkSub 2 7 11 21 false] 7 2
    (by decide)).2.2.1 (by decide)).1

/-- One row of the user_badges table. -/
structure Badge where
  user_id : ℤ
  badge_name : String
  earned_at : ℚ
deriving DecidableEq

/-- Projection used by the UNIQUE(user_id, badge_name) constraint. -/
def badgeKey (b : Badge) : ℤ × String :=
  (b.user_id, b.badge_name)

/-- Candidate badges computed by check_and_award_badges before the insert
loop: first submission, first model selection, exact submission-count
badges, top-5 rank among selected submissions, and first time reaching the
second-highest threshold. -/
def badges_to_award (thresholds : List Threshold) (subs : List Submission)
    (uid : ℤ) (submission_count : ℕ) (public_score : ℚ)
    (is_first_selection : Bool) : List String :=
  (if submission_count = 1 then ["first_submission"] else []) ++
    (if is_first_selection then ["first_model_selection"] else []) ++
    (if submission_count = 10 then ["submissions_10"] else []) ++
    (if submission_count = 50 then ["submissions_50"] else []) ++
    (if submission_count = 100 then ["submissions_100"] else []) ++
    (if subs.countP (fun s =>
          decide (public_score < s.public_score ∧ s.is_selected)) + 1 ≤ 5
      then ["top_5_public"] else []) ++
    (let sorted := sortDescBy (fun t => t.min_score) thresholds
     if h : 1 < sorted.length then
       if (sorted.get ⟨1, h⟩).min_score ≤ public_score ∧
           subs.countP (fun s => decide (s.user_id = uid ∧
             (sorted.get ⟨1, h⟩).min_score ≤ s.public_score)) = 1
         then ["high_threshold_first"] else []
     else [])

/-- Insert loop of check_and_award_badges: each candidate is inserted
unless a row with the same (user_id, badge_name) already exists (the
IntegrityError of the UNIQUE constraint is swallowed), and only the
actually inserted names are reported. -/
def award_badges (store : List Badge) (uid : ℤ) (now : ℚ) :
    List String → List Badge × List String
  | [] => (store, [])
  | n :: rest =>
    if store.any (fun b => decide (b.user_id = uid ∧ b.badge_name = n)) then
      award_badges store uid now rest
    else
      let r := award_badges (store ++ [⟨uid, n, now⟩]) uid now rest
      (r.1, n :: r.2)

/-- Embedding of check_and_award_badges: compute the candidate badges and
run the insert loop over the badge store. -/
def check_and_award_badges (thresholds : List Threshold)
    (subs : List Submission) (store : List Badge) (uid : ℤ)
    (submission_count : ℕ) (public_score : ℚ) (is_first_selection : Bool)
    (now : ℚ) : List Badge × List String :=
  award_badges store uid now
    (badges_to_award thresholds subs uid submission_count public_score
      is_first_selection)

theorem badges_to_award_nodup (thresholds : List Threshold)
    (subs : List Submission) (uid : ℤ) (submission_count : ℕ)
    (public_score : ℚ) (is_first_selection : Bool) :
    (badges_to_award thresholds subs uid submission_count public_score
      is_first_selection).Nodup := by
  have h1 : List.Sublist
      (if submission_count = 1 then ["first_submission"] else [])
      ["first_submission"] := by
    split
    · exact List.Sublist.refl _
    · exact List.nil_sublist _
  have h2 : List.Sublist
      (if is_first_selection then ["first_model_selection"] else [])
      ["first_model_selection"] := by
    split
    · exact List.Sublist.refl _
    · exact List.nil_sublist _
  have h3 : List.Sublist
      (if submission_count = 10 then ["submissions_10"] else [])
      ["submissions_10"] := by
    split
    · exact List.Sublist.refl _
    · exact List.nil_sublist _
  have h4 : List.Sublist
      (if submission_count = 50 then ["submissions_50"] else [])
      ["submissions_50"] := by
    split
    · exact List.Sublist.refl _
    · exact List.nil_sublist _
  have h5 : List.Sublist
      (if submission_count = 100 then ["submissions_100"] else [])
      ["submissions_100"] := by
    split
    · exact List.Sublist.refl _
    · exact List.nil_sublist _
  have h6 : List.Sublist
      (if subs.countP (fun s =>
          decide (public_score < s.public_score ∧ s.is_selected)) + 1 ≤ 5
        then ["top_5_public"] else []) ["top_5_public"] := by
    split
    · exact List.Sublist.refl _
    · exact List.nil_sublist _
  have h7 : List.Sublist
      (let sorted := sortDescBy (fun t => t.min_score) thresholds
        if h : 1 < sorted.length then
          if (sorted.get ⟨1, h⟩).min_score ≤ public_score ∧
              subs.countP (fun s => decide (s.user_id = uid ∧
                (sorted.get ⟨1, h⟩).min_score ≤ s.public_score)) = 1
            then ["high_threshold_first"] else []
        else []) ["high_threshold_first"] := by
    by_cases hl : 1 < (sortDescBy (fun t => t.min_score) thresholds).length
    · show List.Sublist (dite _ _ _) _
      rw [dif_pos hl]
      split
      · exact List.Sublist.refl _
      · exact List.nil_sublist _
    · show List.Sublist (dite _ _ _) _
      rw [dif_neg hl]
      exact List.nil_sublist _
  have hsub : List.Sublist
      (badges_to_award thresholds subs uid submission_count
        public_score is_first_selection)
      ["first_submission", "first_model_selection", "submissions_10",
        "submissions_50", "submissions_100", "top_5_public",
        "high_threshold_first"] := by
    unfold badges_to_award
    exact (((((h1.append h2).append h3).append h4).append h5).append
      h6).append h7
  exact List.Nodup.sublist hsub (by decide)

theorem award_badges_new (store : List Badge) (uid : ℤ) (now : ℚ)
    (names : List String) (hnames : names.Nodup) :
    (award_badges store uid now names).2 =
      names.filter (fun n => !(store.any (fun b =>
        decide (b.user_id = uid ∧ b.badge_name = n)))) := by
  induction names generalizing store with
  | nil => rfl
  | cons n rest ih =>
    have hrest : rest.Nodup := (List.nodup_cons.mp hnames).2
    have hn : n ∉ rest := (List.nodup_cons.mp hnames).1
    by_cases hmem : store.any (fun b =>
      decide (b.user_id = uid ∧ b.badge_name = n))
    · have hstep : award_badges store uid now (n :: rest) =
          award_badges store uid now rest := by
        simp only [award_badges, if_pos hmem]
      have hfil : (n :: rest).filter (fun m => !(store.any (fun b =>
          decide (b.user_id = uid ∧ b.badge_name = m)))) =
          rest.filter (fun m => !(store.any (fun b =>
            decide (b.user_id = uid ∧ b.badge_name = m)))) := by
        rw [List.filter_cons]
        have hc : (!(store.any (fun b =>
            decide (b.user_id = uid ∧ b.badge_name = n)))) = false := by
          rw [hmem]
          rfl
        rw [hc, if_neg Bool.false_ne_true]
      rw [hstep, hfil]
      exact ih store hrest
    · have hneg : (store.any (fun b =>
          decide (b.user_id = uid ∧ b.badge_name = n))) = false :=
        eq_false_of_ne_true hmem
      have hstep : award_badges store uid now (n :: rest) =
          ((award_badges (store ++ [(⟨uid, n, now⟩ : Badge)]) uid now rest).1,
            n :: (award_badges (store ++ [(⟨uid, n, now⟩ : Badge)])
              uid now rest).2) := by
        simp only [award_badges, if_neg hmem]
      have hfil : (n :: rest).filter (fun m => !(store.any (fun b =>
          decide (b.user_id = uid ∧ b.badge_name = m)))) =
          n :: rest.filter (fun m => !(store.any (fun b =>
            decide (b.user_id = uid ∧ b.badge_name = m)))) := by
        rw [List.filter_cons]
        have hc : (!(store.any (fun b =>
            decide (b.user_id = uid ∧ b.badge_name = n)))) = true := by
          rw [hneg]
          rfl
        rw [hc, if_pos rfl]
      rw [hstep, hfil]
      simp only [List.cons.injEq, true_and]
      rw [ih (store ++ [(⟨uid, n, now⟩ : Badge)]) hrest]
      refine List.filter_congr (fun m hm => ?_)
      have hmn : n ≠ m := fun h => hn (h ▸ hm)
      have hone : (([(⟨uid, n, now⟩ : Badge)]).any (fun b =>
          decide (b.user_id = uid ∧ b.badge_name = m))) = false := by
        simp [hmn]
      rw [List.any_append, hone, Bool.or_false]

theorem award_badges_store (store : List Badge) (uid : ℤ) (now : ℚ)
    (names : List String) :
    (award_badges store uid now names).1 =
      store ++ ((award_badges store uid now names).2).map
        (fun n => (⟨uid, n, now⟩ : Badge)) := by
  induction names generalizing store with
  | nil => simp [award_badges]
  | cons n rest ih =>
    by_cases hmem : store.any (fun b =>
      decide (b.user_id = uid ∧ b.badge_name = n))
    · have hstep : award_badges store uid now (n :: rest) =
          award_badges store uid now rest := by
        simp only [award_badges, if_pos hmem]
      rw [hstep]
      exact ih store
    · have hstep : award_badges store uid now (n :: rest) =
          ((award_badges (store ++ [(⟨uid, n, now⟩ : Badge)]) uid now rest).1,
            n :: (award_badges (store ++ [(⟨uid, n, now⟩ : Badge)])
              uid now rest).2) := by
        simp only [award_badges, if_neg hmem]
      rw [hstep]
      show (award_badges (store ++ [(⟨uid, n, now⟩ : Badge)]) uid now rest).1 =
        _
      rw [ih (store ++ [(⟨uid, n, now⟩ : Badge)])]
      simp

theorem award_badges_nodup (store : List Badge) (uid : ℤ) (now : ℚ)
    (names : List String) (hnames : names.Nodup)
    (hstore : (store.map badgeKey).Nodup) :
    ((award_badges store uid now names).1.map badgeKey).Nodup := by
  rw [award_badges_store, List.map_append, List.map_map]
  rw [List.nodup_append]
  refine ⟨hstore, ?_, ?_⟩
  · have hnew : (award_badges store uid now names).2.Nodup := by
      rw [award_badges_new store uid now names hnames]
      exact List.Nodup.filter _ hnames
    refine List.Nodup.map ?_ hnew
    intro a b hab
    simpa [badgeKey, Function.comp] using hab
  · intro x hx hx2
    rcases List.mem_map.mp hx with ⟨b, hbmem, rfl⟩
    rcases List.mem_map.mp hx2 with ⟨n, hnmem, heq⟩
    rw [award_badges_new store uid now names hnames] at hnmem
    have hcond := (List.mem_filter.mp hnmem).2
    have hbk : badgeKey b = (uid, n) := by
      rw [← heq]
      rfl
    have hb2 : b.user_id = uid ∧ b.badge_name = n := by
      have h1 : b.user_id = uid := congrArg Prod.fst hbk
      have h2 : b.badge_name = n := congrArg Prod.snd hbk
      exact ⟨h1, h2⟩
    have : store.any (fun c =>
        decide (c.user_id = uid ∧ c.badge_name = n)) = true :=
      List.any_eq_true.mpr ⟨b, hbmem, by simp [hb2.1, hb2.2]⟩
    rw [this] at hcond
    exact Bool.noConfusion hcond

theorem award_badges_idem (store : List Badge) (uid : ℤ) (now now2 : ℚ)
    (names : List String) (hnames : names.Nodup) :
    (award_badges (award_badges store uid now names).1 uid now2 names).2 =
      [] := by
  have hall : ∀ n ∈ names,
      ((award_badges store uid now names).1.any (fun b =>
        decide (b.user_id = uid ∧ b.badge_name = n))) = true := by
    intro n hn
    rw [award_badges_store, List.any_append]
    by_cases hsm : store.any (fun b =>
      decide (b.user_id = uid ∧ b.badge_name = n))
    · rw [hsm, Bool.true_or]
    · have hnew : n ∈ (award_badges store uid now names).2 := by
        rw [award_badges_new store uid now names hnames]
        refine List.mem_filter.mpr ⟨hn, ?_⟩
        rw [eq_false_of_ne_true hsm]
        rfl
      have hmm : (⟨uid, n, now⟩ : Badge) ∈
          (award_badges store uid now names).2.map
            (fun m => (⟨uid, m, now⟩ : Badge)) :=
        List.mem_map.mpr ⟨n, hnew, rfl⟩
      have h2 : ((award_badges store uid now names).2.map
          (fun m => (⟨uid, m, now⟩ : Badge))).any (fun b =>
            decide (b.user_id = uid ∧ b.badge_name = n)) = true :=
        List.any_eq_true.mpr ⟨_, hmm, by simp⟩
      rw [h2, Bool.or_true]
  rw [award_badges_new _ uid now2 names hnames]
  rw [List.filter_eq_nil_iff]
  intro n hn
  rw [hall n hn]
  simp

/-- C6: the (user_id, badge_name) pair stays unique in the badge store,
the evaluation call returns exactly the triggered badges that the user
did not already have (an insert hitting the uniqueness constraint counts
as already-exists, not as an error), those and only those rows are added,
and re-triggering the same conditions immediately afterwards reports no
newly earned badge. -/
theorem check_and_award_badges_correct (thresholds : List Threshold)
    (subs : List Submission) (store : List Badge) (uid : ℤ)
    (cnt : ℕ) (score : ℚ) (fsel : Bool) (now now2 : ℚ)
    (hstore : (store.map badgeKey).Nodup) :
    (check_and_award_badges thresholds subs store uid cnt score fsel now).2 =
        (badges_to_award thresholds subs uid cnt score fsel).filter
          (fun n => !(store.any (fun b =>
            decide (b.user_id = uid ∧ b.badge_name = n)))) ∧
      (check_and_award_badges thresholds subs store uid cnt score fsel
          now).1 =
        store ++ ((check_and_award_badges thresholds subs store uid cnt
          score fsel now).2).map (fun n => (⟨uid, n, now⟩ : Badge)) ∧
      (((check_and_award_badges thresholds subs store uid cnt score fsel
        now).1).map badgeKey).Nodup ∧
      (check_and_award_badges thresholds subs
        (check_and_award_badges thresholds subs store uid cnt score fsel
          now).1 uid cnt score fsel now2).2 = [] :=
  ⟨award_badges_new store uid now _
      (badges_to_award_nodup thresholds subs uid cnt score fsel),
    award_badges_store store uid now _,
    award_badges_nodup store uid now _
      (badges_to_award_nodup thresholds subs uid cnt score fsel) hstore,
    award_badges_idem store uid now now2 _
      (badges_to_award_nodup thresholds subs uid cnt score fsel)⟩

/-- C6 witness: a first submission on an empty badge store reports exactly
the triggered badges. -/
theorem check_and_award_badges_correct_witness :
    (check_and_award_badges
        [⟨100, "excellent"⟩, ⟨50, "good"⟩, ⟨0, "basic"⟩] [] [] 1 1 0 false
          0).2 =
      (badges_to_award [⟨100, "excellent"⟩, ⟨50, "good"⟩, ⟨0, "basic"⟩]
          [] 1 1 0 false).filter
        (fun n => !(([] : List Badge).any (fun b =>
          decide (b.user_id = 1 ∧ b.badge_name = n)))) :=
  (check_and_award_badges_correct
    [⟨100, "excellent"⟩, ⟨50, "good"⟩, ⟨0, "basic"⟩] [] [] 1 1 0 false 0 0
    (by decide)).1

theorem one_lt_dedup_length_iff [DecidableEq β] (l : List β) :
    1 < l.dedup.length ↔ ∃ a ∈ l, ∃ b ∈ l, a ≠ b := by
  constructor
  · intro h
    rcases hd : l.dedup with _ | ⟨x, tl⟩
    · rw [hd] at h
      simp at h
    rcases htl : tl with _ | ⟨y, rest⟩
    · rw [hd, htl] at h
      simp at h
    rw [htl] at hd
    have hx : x ∈ l := List.mem_dedup.mp (by
      rw [hd]
      exact List.mem_cons_self _ _)
    have hy : y ∈ l := List.mem_dedup.mp (by
      rw [hd]
      exact List.mem_cons_of_mem _ (List.mem_cons_self _ _))
    have hnd := l.nodup_dedup
    rw [hd] at hnd
    have hxy : x ≠ y := by
      intro hxy
      have := (List.nodup_cons.mp hnd).1
      exact this (hxy ▸ List.mem_cons_self y rest)
    exact ⟨x, hx, y, hy, hxy⟩
  · rintro ⟨a, ha, b, hb, hab⟩
    have had : a ∈ l.dedup := List.mem_dedup.mpr ha
    have hbd : b ∈ l.dedup := List.mem_dedup.mpr hb
    rcases hd : l.dedup with _ | ⟨x, tl⟩
    · rw [hd] at had
      exact absurd had (List.not_mem_nil a)
    rcases htl : tl with _ | ⟨y, rest⟩
    · rw [htl] at hd
      rw [hd] at had hbd
      have ha1 : a = x := List.mem_singleton.mp had
      have hb1 : b = x := List.mem_singleton.mp hbd
      exact absurd (ha1.trans hb1.symm) hab
    simp

/-- Embedding of process_duplicates: group the submissions by
file_checksum, keep only the groups whose rows span more than one distinct
user_id, and report checksum, distinct participating emails and all
submission names of the group. -/
def process_duplicates (subs : List Submission) :
    List (String × List String × List String) :=
  ((subs.map (fun s => s.file_checksum)).dedup).filterMap (fun c =>
    let g := subs.filter (fun s => decide (s.file_checksum = c))
    if 1 < ((g.map (fun s => s.user_id)).dedup).length then
      some (c, ((g.map (fun s => s.user_email)).dedup,
        g.map (fun s => s.submission_name)))
    else none)

/-- C7: a checksum is reported as a duplicate group exactly when two
submissions with that checksum come from different users (so identical
files of one single user are never reported), and each reported group
carries the participating emails and the submission names of its rows. -/
theorem process_duplicates_correct (subs : List Submission) :
    (∀ c : String,
      (∃ r ∈ process_duplicates subs, r.1 = c) ↔
        ∃ s1 ∈ subs, ∃ s2 ∈ subs, s1.file_checksum = c ∧
          s2.file_checksum = c ∧ s1.user_id ≠ s2.user_id) ∧
      (∀ r ∈ process_duplicates subs,
        r.2.1 = ((subs.filter (fun s =>
          decide (s.file_checksum = r.1))).map
            (fun s => s.user_email)).dedup ∧
        r.2.2 = (subs.filter (fun s =>
          decide (s.file_checksum = r.1))).map
            (fun s => s.submission_name)) := by
  have hshape : ∀ r ∈ process_duplicates subs,
      r = (r.1, (((subs.filter (fun s => decide (s.file_checksum = r.1))).map
          (fun s => s.user_email)).dedup,
        (subs.filter (fun s => decide (s.file_checksum = r.1))).map
          (fun s => s.submission_name))) ∧
      1 < (((subs.filter (fun s => decide (s.file_checksum = r.1))).map
        (fun s => s.user_id)).dedup).length := by
    intro r hr
    rcases List.mem_filterMap.mp hr with ⟨c, _, hfc⟩
    by_cases hcond : 1 < (((subs.filter (fun s =>
        decide (s.file_checksum = c))).map (fun s => s.user_id)).dedup).length
    · rw [if_pos hcond] at hfc
      injection hfc with hfc
      subst hfc
      exact ⟨rfl, hcond⟩
    · rw [if_neg hcond] at hfc
      exact absurd hfc (Option.noConfusion)
  constructor
  · intro c
    constructor
    · rintro ⟨r, hr, rfl⟩
      have hcond := (hshape r hr).2
      rcases (one_lt_dedup_length_iff _).mp hcond with ⟨u1, hu1, u2, hu2, hne⟩
      rcases List.mem_map.mp hu1 with ⟨s1, hs1, rfl⟩
      rcases List.mem_map.mp hu2 with ⟨s2, hs2, rfl⟩
      have h1 := List.mem_filter.mp hs1
      have h2 := List.mem_filter.mp hs2
      exact ⟨s1, h1.1, s2, h2.1, by simpa using h1.2, by simpa using h2.2,
        hne⟩
    · rintro ⟨s1, hs1, s2, hs2, hc1, hc2, hne⟩
      have hcmem : c ∈ (subs.map (fun s => s.file_checksum)).dedup :=
        List.mem_dedup.mpr (List.mem_map.mpr ⟨s1, hs1, hc1⟩)
      have hg1 : s1 ∈ subs.filter (fun s => decide (s.file_checksum = c)) :=
        List.mem_filter.mpr ⟨hs1, by simpa using hc1⟩
      have hg2 : s2 ∈ subs.filter (fun s => decide (s.file_checksum = c)) :=
        List.mem_filter.mpr ⟨hs2, by simpa using hc2⟩
      have hcond : 1 < (((subs.filter (fun s =>
          decide (s.file_checksum = c))).map
            (fun s => s.user_id)).dedup).length :=
        (one_lt_dedup_length_iff _).mpr
          ⟨s1.user_id, List.mem_map.mpr ⟨s1, hg1, rfl⟩,
            s2.user_id, List.mem_map.mpr ⟨s2, hg2, rfl⟩, hne⟩
      refine ⟨(c, (((subs.filter (fun s =>
          decide (s.file_checksum = c))).map
            (fun s => s.user_email)).dedup,
          (subs.filter (fun s => decide (s.file_checksum = c))).map
            (fun s => s.submission_name))), ?_, rfl⟩
      refine List.mem_filterMap.mpr ⟨c, hcmem, ?_⟩
      rw [if_pos hcond]
  · intro r hr
    have hr2 := (hshape r hr).1
    constructor
    · exact congrArg (fun p => p.2.1) hr2
    · exact congrArg (fun p => p.2.2) hr2

/-- One row of the fake_submissions table. -/
structure FakeSubmission where
  name : String
  public_score : ℚ
  threshold_category : String
deriving DecidableEq

/-- Grouping key of the real_submissions CTE of the public leaderboard:
GROUP BY user_id, user_full_name. -/
def pairKey (s : Submission) : ℤ × String :=
  (s.user_id, s.user_full_name)

/-- Per-group rows of the real_submissions CTE: one (name, best public
score) row per (user_id, user_full_name) group. -/
def real_rows (subs : List Submission) : List (String × ℚ) :=
  ((subs.map pairKey).dedup).filterMap (fun k =>
    (((subs.filter (fun s => decide (pairKey s = k))).map
      (fun s => s.public_score)).max?).map (fun m => (k.2, m)))

/-- Rows contributed by the fake_submissions table: name and stored public
score. -/
def fake_rows (fakes : List FakeSubmission) : List (String × ℚ) :=
  fakes.map (fun f => (f.name, f.public_score))

/-- Embedding of process_leaderboard_public: union the per-user best rows
with the fake rows, order by score descending, and recompute the category
of EVERY row through get_threshold_category at read time. -/
def process_leaderboard_public (subs : List Submission)
    (fakes : List FakeSubmission) (thresholds : List Threshold) :
    List (String × ℚ × Option String) :=
  (sortDescBy (fun r => r.2) (real_rows subs ++ fake_rows fakes)).map
    (fun r => (r.1, r.2, get_threshold_category thresholds r.2))

theorem length_filterMap_of_isSome (l : List α) (f : α → Option β)
    (h : ∀ a ∈ l, (f a).isSome) : (l.filterMap f).length = l.length := by
  induction l with
  | nil => rfl
  | cons x xs ih =>
    rcases hfx : f x with _ | b
    · exact absurd (hfx ▸ h x (List.mem_cons_self x xs)) (by simp)
    · rw [List.filterMap_cons, hfx]
      simp only [List.length_cons]
      rw [ih (fun a ha => h a (List.mem_cons_of_mem _ ha))]

theorem dedup_map_length_congr [DecidableEq β] [DecidableEq γ] (l : List α)
    (f : α → β) (g : α → γ)
    (h : ∀ a ∈ l, ∀ b ∈ l, (f a = f b ↔ g a = g b)) :
    ((l.map f).dedup).length = ((l.map g).dedup).length := by
  induction l with
  | nil => rfl
  | cons x xs ih =>
    have hx : x ∈ x :: xs := List.mem_cons_self x xs
    have hrec := ih (fun a ha b hb =>
      h a (List.mem_cons_of_mem _ ha) b (List.mem_cons_of_mem _ hb))
    rw [List.map_cons, List.map_cons]
    by_cases hf : f x ∈ xs.map f
    · have hg : g x ∈ xs.map g := by
        rcases List.mem_map.mp hf with ⟨a, ha, hfa⟩
        exact List.mem_map.mpr
          ⟨a, ha, (h a (List.mem_cons_of_mem _ ha) x hx).mp hfa⟩
      rw [List.dedup_cons_of_mem hf, List.dedup_cons_of_mem hg, hrec]
    · have hg : g x ∉ xs.map g := by
        intro hmem
        apply hf
        rcases List.mem_map.mp hmem with ⟨a, ha, hga⟩
        exact List.mem_map.mpr
          ⟨a, ha, (h a (List.mem_cons_of_mem _ ha) x hx).mpr hga⟩
      rw [List.dedup_cons_of_not_mem hf, List.dedup_cons_of_not_mem hg]
      simp [hrec]

theorem ratMax?_eq_some_iff (l : List ℚ) (a : ℚ) :
    l.max? = some a ↔ a ∈ l ∧ ∀ b ∈ l, b ≤ a := by
  haveI : Std.Antisymm ((· : ℚ) ≤ ·) := ⟨fun h1 h2 => le_antisymm h1 h2⟩
  exact List.max?_eq_some_iff (fun q => le_refl q) max_choice
    (fun a b c => max_le_iff)

theorem filter_pairKey_eq (subs : List Submission) (k : ℤ × String)
    (hname : ∀ s1 ∈ subs, ∀ s2 ∈ subs, s1.user_id = s2.user_id →
      s1.user_full_name = s2.user_full_name)
    (hk : ∃ s0 ∈ subs, pairKey s0 = k) :
    subs.filter (fun s => decide (pairKey s = k)) =
      subs.filter (fun s => decide (s.user_id = k.1)) := by
  rcases hk with ⟨s0, hs0, hk0⟩
  refine List.filter_congr (fun s hs => ?_)
  by_cases hu : s.user_id = k.1
  · have hid : s0.user_id = k.1 := congrArg Prod.fst hk0
    have hnm0 : s0.user_full_name = k.2 := congrArg Prod.snd hk0
    have hnm : s.user_full_name = k.2 :=
      (hname s hs s0 hs0 (hu.trans hid.symm)).trans hnm0
    have hpk : pairKey s = k := by
      show (s.user_id, s.user_full_name) = k
      rw [hu, hnm]
    simp [hpk, hu]
  · have hpk : pairKey s ≠ k := by
      intro hpk
      exact hu (congrArg Prod.fst hpk)
    simp [hpk, hu]

theorem real_rows_isSome (subs : List Submission) (k : ℤ × String)
    (hk : k ∈ (subs.map pairKey).dedup) :
    ((((subs.filter (fun s => decide (pairKey s = k))).map
      (fun s => s.public_score)).max?).map (fun m => (k.2, m))).isSome := by
  rcases List.mem_map.mp (List.mem_dedup.mp hk) with ⟨s0, hs0, hk0⟩
  have hmem : s0 ∈ subs.filter (fun s => decide (pairKey s = k)) :=
    List.mem_filter.mpr ⟨hs0, by simp [hk0]⟩
  have hne : (subs.filter (fun s => decide (pairKey s = k))).map
      (fun s => s.public_score) ≠ [] := by
    intro h
    rw [List.map_eq_nil_iff] at h
    rw [h] at hmem
    exact List.not_mem_nil s0 hmem
  rcases hmax : ((subs.filter (fun s => decide (pairKey s = k))).map
      (fun s => s.public_score)).max? with _ | m
  · exact absurd (List.max?_eq_none_iff.mp hmax) hne
  · simp [hmax]

/-- C1 (amended): the public leaderboard is the union of one best-score
row per user and all fake rows, ordered by public score descending, and
the category of EVERY row, real and fake alike, is recomputed through the
ThresholdClassifier at read time; the stored threshold_category of fake
rows is never consulted. -/
theorem process_leaderboard_public_correct (subs : List Submission)
    (fakes : List FakeSubmission) (thresholds : List Threshold)
    (hname : ∀ s1 ∈ subs, ∀ s2 ∈ subs, s1.user_id = s2.user_id →
      s1.user_full_name = s2.user_full_name) :
    (∀ r ∈ process_leaderboard_public subs fakes thresholds,
      r.2.2 = get_threshold_category thresholds r.2.1) ∧
      (∀ f : FakeSubmission → String,
        process_leaderboard_public subs
          (fakes.map (fun x => ⟨x.name, x.public_score, f x⟩)) thresholds =
        process_leaderboard_public subs fakes thresholds) ∧
      (process_leaderboard_public subs fakes thresholds).Pairwise
        (fun a b => b.2.1 ≤ a.2.1) ∧
      List.Perm
        ((process_leaderboard_public subs fakes thresholds).map
          (fun r => (r.1, r.2.1)))
        (real_rows subs ++ fake_rows fakes) ∧
      (real_rows subs).length =
        ((subs.map (fun s => s.user_id)).dedup).length ∧
      (∀ r ∈ real_rows subs, ∃ u : ℤ,
        (∃ s ∈ subs, s.user_id = u ∧ s.user_full_name = r.1) ∧
        (∃ s ∈ subs, s.user_id = u ∧ s.public_score = r.2) ∧
        (∀ s ∈ subs, s.user_id = u → s.public_score ≤ r.2)) ∧
      (∀ u : ℤ, (∃ s ∈ subs, s.user_id = u) → ∃ r ∈ real_rows subs,
        (∃ s ∈ subs, s.user_id = u ∧ s.user_full_name = r.1) ∧
        (∃ s ∈ subs, s.user_id = u ∧ s.public_score = r.2) ∧
        (∀ s ∈ subs, s.user_id = u → s.public_score ≤ r.2)) := by
  refine ⟨?_, ?_, ?_, ?_, ?_, ?_, ?_⟩
  · intro r hr
    rcases List.mem_map.mp hr with ⟨x, _, rfl⟩
    rfl
  · intro f
    unfold process_leaderboard_public
    have hf : fake_rows (fakes.map (fun x =>
        (⟨x.name, x.public_score, f x⟩ : FakeSubmission))) =
        fake_rows fakes := by
      unfold fake_rows
      rw [List.map_map]
      rfl
    rw [hf]
  · have hsorted := sortDescBy_sorted (fun r : String × ℚ => r.2)
      (real_rows subs ++ fake_rows fakes)
    exact List.Pairwise.map _ (fun a b h => h) hsorted
  · have hmm : ((process_leaderboard_public subs fakes thresholds).map
        (fun r => (r.1, r.2.1))) =
        sortDescBy (fun r => r.2) (real_rows subs ++ fake_rows fakes) := by
      unfold process_leaderboard_public
      rw [List.map_map]
      exact List.map_id _
    rw [hmm]
    exact sortDescBy_perm _ _
  · unfold real_rows
    rw [length_filterMap_of_isSome _ _ (real_rows_isSome subs)]
    refine dedup_map_length_congr subs pairKey (fun s => s.user_id)
      (fun a ha b hb => ?_)
    constructor
    · intro h
      exact congrArg Prod.fst h
    · intro h
      have hid : a.user_id = b.user_id := h
      show (a.user_id, a.user_full_name) = (b.user_id, b.user_full_name)
      rw [hid, hname a ha b hb hid]
  · intro r hr
    rcases List.mem_filterMap.mp hr with ⟨k, hk, heq⟩
    rcases hmax : ((subs.filter (fun s => decide (pairKey s = k))).map
        (fun s => s.public_score)).max? with _ | m
    · rw [hmax] at heq
      exact absurd heq (Option.noConfusion)
    rw [hmax] at heq
    injection heq with heq
    rcases List.mem_map.mp (List.mem_dedup.mp hk) with ⟨s0, hs0, hk0⟩
    have hfe := filter_pairKey_eq subs k hname ⟨s0, hs0, hk0⟩
    rw [hfe] at hmax
    rcases (ratMax?_eq_some_iff _ _).mp hmax with ⟨hmem, hub⟩
    refine ⟨k.1, ?_, ?_, ?_⟩
    · refine ⟨s0, hs0, congrArg Prod.fst hk0, ?_⟩
      rw [← heq]
      exact congrArg Prod.snd hk0
    · rcases List.mem_map.mp hmem with ⟨s, hsg, hsc⟩
      have hsf := List.mem_filter.mp hsg
      refine ⟨s, hsf.1, by simpa using hsf.2, ?_⟩
      rw [← heq]
      exact hsc
    · intro s hs hu
      have hsg : s ∈ subs.filter (fun s => decide (s.user_id = k.1)) :=
        List.mem_filter.mpr ⟨hs, by simpa using hu⟩
      have := hub s.public_score (List.mem_map.mpr ⟨s, hsg, rfl⟩)
      rw [← heq]
      exact this
  · intro u hu
    rcases hu with ⟨s, hs, hsu⟩
    have hkmem : pairKey s ∈ (subs.map pairKey).dedup :=
      List.mem_dedup.mpr (List.mem_map.mpr ⟨s, hs, rfl⟩)
    have hfe := filter_pairKey_eq subs (pairKey s) hname ⟨s, hs, rfl⟩
    have hsg : s ∈ subs.filter (fun t => decide (t.user_id = (pairKey s).1)) :=
      List.mem_filter.mpr ⟨hs, by simp [pairKey]⟩
    rcases hmax : ((subs.filter (fun t => decide (pairKey t = pairKey s))).map
        (fun t => t.public_score)).max? with _ | m
    · rw [hfe] at hmax
      have := List.max?_eq_none_iff.mp hmax
      rw [List.map_eq_nil_iff] at this
      rw [this] at hsg
      exact absurd hsg (List.not_mem_nil s)
    refine ⟨((pairKey s).2, m), ?_, ?_, ?_, ?_⟩
    · refine List.mem_filterMap.mpr ⟨pairKey s, hkmem, ?_⟩
      rw [hmax]
      rfl
    · exact ⟨s, hs, hsu, rfl⟩
    · rw [hfe] at hmax
      rcases (ratMax?_eq_some_iff _ _).mp hmax with ⟨hmem, _⟩
      rcases List.mem_map.mp hmem with ⟨t, htg, htc⟩
      have htf := List.mem_filter.mp htg
      have htu : t.user_id = (pairKey s).1 := by simpa using htf.2
      exact ⟨t, htf.1, htu.trans (by rw [pairKey] at htu ⊢; exact hsu ▸ rfl), htc⟩
    · intro t ht htu
      rw [hfe] at hmax
      rcases (ratMax?_eq_some_iff _ _).mp hmax with ⟨_, hub⟩
      have htg : t ∈ subs.filter (fun x => decide (x.user_id = (pairKey s).1)) :=
        List.mem_filter.mpr ⟨ht, by simp [pairKey, htu, hsu]⟩
      exact hub t.public_score (List.mem_map.mpr ⟨t, htg, rfl⟩)

/-- C1 counterexample: a fake entry whose stored category is basic but
whose score classifies as excellent is displayed with the recomputed
category, not the stored one. -/
theorem process_leaderboard_public_counterexample :
    process_leaderboard_public []
        [⟨"ghost", 150, "basic"⟩]
        [⟨100, "excellent"⟩, ⟨50, "good"⟩, ⟨0, "basic"⟩] =
      [("ghost", (150, some "excellent"))] ∧
      (⟨"ghost", 150, "basic"⟩ : FakeSubmission).threshold_category =
        "basic" ∧
      "excellent" ≠ "basic" := by
  refine ⟨?_, rfl, by decide⟩
  rfl

/-- C1 witness: a store with one submission and no fakes instantiates the
characterization. -/
theorem process_leaderboard_public_correct_witness :
    (process_leaderboard_public [mkSub 1 7 10 20 false] []
        [⟨100, "excellent"⟩, ⟨50, "good"⟩, ⟨0, "basic"⟩]).Pairwise
      (fun a b => b.2.1 ≤ a.2.1) :=
  (process_leaderboard_public_correct [mkSub 1 7 10 20 false] []
    [⟨100, "excellent"⟩, ⟨50, "good"⟩, ⟨0, "basic"⟩]
    (by decide)).2.2.1

/-- Grouping key of the user_stats CTE of the full leaderboard:
GROUP BY user_id, user_full_name, user_email. -/
def tripleKey (s : Submission) : ℤ × String × String :=
  (s.user_id, s.user_full_name, s.user_email)

/-- One output row of the full leaderboard. -/
structure FullRow where
  name : String
  final_score : ℚ
  total_submissions : ℕ
  best_public : ℚ
  best_private : ℚ
deriving DecidableEq

/-- Stats of one user_stats group: COALESCE of the selected private score
with the best private score gives final_score, plus totals and maxima. -/
def full_row_of (g : List Submission) (k : ℤ × String × String) :
    Option FullRow :=
  match (g.map (fun s => s.private_score)).max?,
      (g.map (fun s => s.public_score)).max? with
  | some bpriv, some bpub =>
    some ⟨k.2.1,
      (((g.filter (fun s => s.is_selected)).map
        (fun s => s.private_score)).max?).getD bpriv,
      g.length, bpub, bpriv⟩
  | _, _ => none

/-- Embedding of process_leaderboard_full: one stats row per
(user_id, name, email) group, ordered by final_score descending. -/
def process_leaderboard_full (subs : List Submission) : List FullRow :=
  sortDescBy (fun r => r.final_score)
    (((subs.map tripleKey).dedup).filterMap (fun k =>
      full_row_of (subs.filter (fun s => decide (tripleKey s = k))) k))

/-- Specification of one full-leaderboard row for user u: correct name,
submission count, best public and private scores, and a final score that
is the selected submission's private score when a selected one exists and
the best private score otherwise. -/
def rowSpec (subs : List Submission) (u : ℤ) (r : FullRow) : Prop :=
  (∃ s ∈ subs, s.user_id = u ∧ s.user_full_name = r.name) ∧
    r.total_submissions =
      (subs.filter (fun s => decide (s.user_id = u))).length ∧
    (∃ s ∈ subs, s.user_id = u ∧ s.public_score = r.best_public) ∧
    (∀ s ∈ subs, s.user_id = u → s.public_score ≤ r.best_public) ∧
    (∃ s ∈ subs, s.user_id = u ∧ s.private_score = r.best_private) ∧
    (∀ s ∈ subs, s.user_id = u → s.private_score ≤ r.best_private) ∧
    (∀ s ∈ subs, s.user_id = u → s.is_selected →
      r.final_score = s.private_score) ∧
    ((∀ s ∈ subs, s.user_id = u → s.is_selected = false) →
      r.final_score = r.best_private)

theorem filter_tripleKey_eq (subs : List Submission) (k : ℤ × String × String)
    (hconsist : ∀ s1 ∈ subs, ∀ s2 ∈ subs, s1.user_id = s2.user_id →
      s1.user_full_name = s2.user_full_name ∧ s1.user_email = s2.user_email)
    (hk : ∃ s0 ∈ subs, tripleKey s0 = k) :
    subs.filter (fun s => decide (tripleKey s = k)) =
      subs.filter (fun s => decide (s.user_id = k.1)) := by
  rcases hk with ⟨s0, hs0, hk0⟩
  refine List.filter_congr (fun s hs => ?_)
  by_cases hu : s.user_id = k.1
  · have hid : s0.user_id = k.1 := congrArg Prod.fst hk0
    have hrest : (s0.user_full_name, s0.user_email) = k.2 :=
      congrArg Prod.snd hk0
    have hcs := hconsist s hs s0 hs0 (hu.trans hid.symm)
    have htk : tripleKey s = k := by
      show (s.user_id, s.user_full_name, s.user_email) = k
      rw [hu, hcs.1, hcs.2]
      show (k.1, (s0.user_full_name, s0.user_email)) = k
      rw [hrest]
    simp [htk, hu]
  · have htk : tripleKey s ≠ k := by
      intro htk
      exact hu (congrArg Prod.fst htk)
    simp [htk, hu]

theorem full_row_isSome (subs : List Submission) (k : ℤ × String × String)
    (hk : k ∈ (subs.map tripleKey).dedup) :
    (full_row_of (subs.filter (fun s => decide (tripleKey s = k))) k).isSome
      := by
  rcases List.mem_map.mp (List.mem_dedup.mp hk) with ⟨s0, hs0, hk0⟩
  have hmem : s0 ∈ subs.filter (fun s => decide (tripleKey s = k)) :=
    List.mem_filter.mpr ⟨hs0, by simp [hk0]⟩
  have hne1 : (subs.filter (fun s => decide (tripleKey s = k))).map
      (fun s => s.private_score) ≠ [] := by
    intro h
    rw [List.map_eq_nil_iff] at h
    rw [h] at hmem
    exact List.not_mem_nil s0 hmem
  have hne2 : (subs.filter (fun s => decide (tripleKey s = k))).map
      (fun s => s.public_score) ≠ [] := by
    intro h
    rw [List.map_eq_nil_iff] at h
    rw [h] at hmem
    exact List.not_mem_nil s0 hmem
  unfold full_row_of
  rcases h1 : ((subs.filter (fun s => decide (tripleKey s = k))).map
      (fun s => s.private_score)).max? with _ | bpriv
  · exact absurd (List.max?_eq_none_iff.mp h1) hne1
  rcases h2 : ((subs.filter (fun s => decide (tripleKey s = k))).map
      (fun s => s.public_score)).max? with _ | bpub
  · exact absurd (List.max?_eq_none_iff.mp h2) hne2
  rw [h1, h2]
  rfl

theorem full_row_of_rowSpec (subs : List Submission)
    (k : ℤ × String × String) (r : FullRow)
    (hconsist : ∀ s1 ∈ subs, ∀ s2 ∈ subs, s1.user_id = s2.user_id →
      s1.user_full_name = s2.user_full_name ∧ s1.user_email = s2.user_email)
    (hsel : ∀ s1 ∈ subs, ∀ s2 ∈ subs, s1.is_selected → s2.is_selected →
      s1.user_id = s2.user_id → s1 = s2)
    (hk : ∃ s0 ∈ subs, tripleKey s0 = k)
    (heq : full_row_of (subs.filter (fun s => decide (tripleKey s = k))) k =
      some r) :
    rowSpec subs k.1 r := by
  rcases hk with ⟨s0, hs0, hk0⟩
  have hfe := filter_tripleKey_eq subs k hconsist ⟨s0, hs0, hk0⟩
  rw [hfe] at heq
  unfold full_row_of at heq
  rcases h1 : ((subs.filter (fun s => decide (s.user_id = k.1))).map
      (fun s => s.private_score)).max? with _ | bpriv
  · rw [h1] at heq
    exact absurd heq (Option.noConfusion)
  rcases h2 : ((subs.filter (fun s => decide (s.user_id = k.1))).map
      (fun s => s.public_score)).max? with _ | bpub
  · rw [h1, h2] at heq
    exact absurd heq (Option.noConfusion)
  rw [h1, h2] at heq
  injection heq with heq
  subst heq
  rcases (ratMax?_eq_some_iff _ _).mp h1 with ⟨hm1, hub1⟩
  rcases (ratMax?_eq_some_iff _ _).mp h2 with ⟨hm2, hub2⟩
  refine ⟨?_, rfl, ?_, ?_, ?_, ?_, ?_, ?_⟩
  · refine ⟨s0, hs0, congrArg Prod.fst hk0, ?_⟩
    show s0.user_full_name = k.2.1
    have := congrArg Prod.snd hk0
    exact congrArg Prod.fst this
  · rcases List.mem_map.mp hm2 with ⟨s, hsg, hsc⟩
    have hsf := List.mem_filter.mp hsg
    exact ⟨s, hsf.1, by simpa using hsf.2, hsc⟩
  · intro s hs hu
    exact hub2 s.public_score (List.mem_map.mpr
      ⟨s, List.mem_filter.mpr ⟨hs, by simpa using hu⟩, rfl⟩)
  · rcases List.mem_map.mp hm1 with ⟨s, hsg, hsc⟩
    have hsf := List.mem_filter.mp hsg
    exact ⟨s, hsf.1, by simpa using hsf.2, hsc⟩
  · intro s hs hu
    exact hub1 s.private_score (List.mem_map.mpr
      ⟨s, List.mem_filter.mpr ⟨hs, by simpa using hu⟩, rfl⟩)
  · intro s hs hu hsel2
    rcases hm : (((subs.filter (fun t => decide (t.user_id = k.1))).filter
        (fun t => t.is_selected)).map (fun t => t.private_score)).max?
        with _ | m
    · have := List.max?_eq_none_iff.mp hm
      rw [List.map_eq_nil_iff] at this
      have hsg : s ∈ (subs.filter (fun t =>
          decide (t.user_id = k.1))).filter (fun t => t.is_selected) :=
        List.mem_filter.mpr
          ⟨List.mem_filter.mpr ⟨hs, by simpa using hu⟩, by simpa using hsel2⟩
      rw [this] at hsg
      exact absurd hsg (List.not_mem_nil s)
    · rcases (ratMax?_eq_some_iff _ _).mp hm with ⟨hmm, _⟩
      rcases List.mem_map.mp hmm with ⟨t, htg, htc⟩
      have htf := List.mem_filter.mp htg
      have htf2 := List.mem_filter.mp htf.1
      have hts : t = s := hsel t htf2.1 s hs (by simpa using htf.2) hsel2
        (by
          have : t.user_id = k.1 := by simpa using htf2.2
          rw [this, hu])
      show (((subs.filter (fun t => decide (t.user_id = k.1))).filter
          (fun t => t.is_selected)).map
            (fun t => t.private_score)).max?.getD bpriv = s.private_score
      rw [hm]
      show m = s.private_score
      rw [← htc, hts]
  · intro hnone
    rcases hm : (((subs.filter (fun t => decide (t.user_id = k.1))).filter
        (fun t => t.is_selected)).map (fun t => t.private_score)).max?
        with _ | m
    · show (((subs.filter (fun t => decide (t.user_id = k.1))).filter
          (fun t => t.is_selected)).map
            (fun t => t.private_score)).max?.getD bpriv = bpriv
      rw [hm]
      rfl
    · rcases (ratMax?_eq_some_iff _ _).mp hm with ⟨hmm, _⟩
      rcases List.mem_map.mp hmm with ⟨t, htg, _⟩
      have htf := List.mem_filter.mp htg
      have htf2 := List.mem_filter.mp htf.1
      have := hnone t htf2.1 (by simpa using htf2.2)
      rw [this] at htf
      exact absurd htf.2 (by simp)

/-- C5: every full-leaderboard row carries one user's name, total
submission count, best public and best private scores, its final score is
the selected submission's private score when a selection exists and the
best private score otherwise, there is exactly one row per user, and rows
are ordered by final score descending. -/
theorem process_leaderboard_full_correct (subs : List Submission)
    (hconsist : ∀ s1 ∈ subs, ∀ s2 ∈ subs, s1.user_id = s2.user_id →
      s1.user_full_name = s2.user_full_name ∧ s1.user_email = s2.user_email)
    (hsel : ∀ s1 ∈ subs, ∀ s2 ∈ subs, s1.is_selected → s2.is_selected →
      s1.user_id = s2.user_id → s1 = s2) :
    (process_leaderboard_full subs).Pairwise
        (fun a b => b.final_score ≤ a.final_score) ∧
      (process_leaderboard_full subs).length =
        ((subs.map (fun s => s.user_id)).dedup).length ∧
      (∀ r ∈ process_leaderboard_full subs, ∃ u : ℤ, rowSpec subs u r) ∧
      (∀ u : ℤ, (∃ s ∈ subs, s.user_id = u) →
        ∃ r ∈ process_leaderboard_full subs, rowSpec subs u r) := by
  refine ⟨?_, ?_, ?_, ?_⟩
  · exact sortDescBy_sorted _ _
  · unfold process_leaderboard_full
    rw [(sortDescBy_perm _ _).length_eq]
    rw [length_filterMap_of_isSome _ _ (full_row_isSome subs)]
    refine dedup_map_length_congr subs tripleKey (fun s => s.user_id)
      (fun a ha b hb => ?_)
    constructor
    · intro h
      exact congrArg Prod.fst h
    · intro h
      have hid : a.user_id = b.user_id := h
      have hcs := hconsist a ha b hb hid
      show (a.user_id, a.user_full_name, a.user_email) =
        (b.user_id, b.user_full_name, b.user_email)
      rw [hid, hcs.1, hcs.2]
  · intro r hr
    unfold process_leaderboard_full at hr
    rw [(sortDescBy_perm _ _).mem_iff] at hr
    rcases List.mem_filterMap.mp hr with ⟨k, hk, heq⟩
    rcases List.mem_map.mp (List.mem_dedup.mp hk) with ⟨s0, hs0, hk0⟩
    exact ⟨k.1, full_row_of_rowSpec subs k r hconsist hsel ⟨s0, hs0, hk0⟩ heq⟩
  · intro u hu
    rcases hu with ⟨s, hs, hsu⟩
    have hkmem : tripleKey s ∈ (subs.map tripleKey).dedup :=
      List.mem_dedup.mpr (List.mem_map.mpr ⟨s, hs, rfl⟩)
    have hisSome := full_row_isSome subs (tripleKey s) hkmem
    rcases heq : full_row_of (subs.filter (fun t =>
        decide (tripleKey t = tripleKey s))) (tripleKey s) with _ | r
    · rw [heq] at hisSome
      exact absurd hisSome (by simp)
    have hrmem : r ∈ process_leaderboard_full subs := by
      unfold process_leaderboard_full
      rw [(sortDescBy_perm _ _).mem_iff]
      exact List.mem_filterMap.mpr ⟨tripleKey s, hkmem, heq⟩
    have hspec := full_row_of_rowSpec subs (tripleKey s) r hconsist hsel
      ⟨s, hs, rfl⟩ heq
    rw [show (tripleKey s).1 = u from hsu] at hspec
    exact ⟨r, hrmem, hspec⟩

/-- C5 witness: the spec example (selected private 20, unselected private
30 for one user) has one row whose final score is 20, and the theorem
instantiates on it. -/
theorem process_leaderboard_full_correct_witness :
    (process_leaderboard_full
          [mkSub 1 7 10 20 true, mkSub 2 7 11 30 false]).length =
        ((([mkSub 1 7 10 20 true, mkSub 2 7 11 30 false]).map
          (fun s => s.user_id)).dedup).length ∧
      (process_leaderboard_full
        [mkSub 1 7 10 20 true, mkSub 2 7 11 30 false]).map
          (fun r => r.final_score) = [20] :=
  ⟨(process_leaderboard_full_correct
      [mkSub 1 7 10 20 true, mkSub 2 7 11 30 false]
      (by decide) (by decide)).2.1, by rfl⟩

/-- Static configuration of the bot: competition deadline, gain matrix,
thresholds, master data and instructor emails. -/
structure Config where
  deadline : ℚ
  gain : GainMatrix
  thresholds : List Threshold
  master : List MasterRecord
  teachers : List String
deriving DecidableEq

/-- Mutable state owned by the store: the two tables and the next
autoincrement id. -/
structure BotState where
  submissions : List Submission
  badges : List Badge
  next_id : ℤ
deriving DecidableEq

/-- One cell of the single prediction column as read from the CSV. -/
inductive CsvValue where
  | intVal (n : ℤ)
  | strVal (v : String)
deriving DecidableEq

/-- Parsed CSV table: its column count and the first column. -/
structure ParsedCsv where
  ncols : ℕ
  col0 : List CsvValue
deriving DecidableEq

/-- Attachment resolved by the transport collaborator: declared filename,
checksum of the raw bytes and the parse outcome (none models a pandas
read failure). -/
structure Attachment where
  filename : String
  checksum : String
  parsed : Option ParsedCsv
deriving DecidableEq

/-- One inbound submit command after transport decoding. -/
structure SubmitMsg where
  sender_id : ℤ
  sender_email : String
  sender_full_name : String
  has_name : Bool
  submission_name : String
  attachment : Option Attachment
  now : ℚ
deriving DecidableEq

/-- Response of the submit workflow. -/
inductive SubmitResponse where
  | deadlineExpired
  | wrongFormat
  | missingFile
  | notCsv
  | csvReadError
  | wrongColumns
  | invalidIds (n : ℕ)
  | teacherReport (pub priv : ScoreResult) (category : String) (npos : ℕ)
  | submitOk (id : ℤ) (pub : ℚ) (npos : ℕ) (newBadges : List String)
  | processingError (msg : String)
deriving DecidableEq

/-- Embedding of filename.lower().endswith(".csv"): lowercase the
filename character by character and test for the .csv suffix. -/
def filename_is_csv (filename : String) : Bool :=
  List.isSuffixOf ".csv".data (filename.data.map Char.toLower)

/-- Embedding of astype(int) over the prediction column: fails like the
Python conversion on any non-numeric cell. -/
def astype_int : List CsvValue → Except String (List ℤ)
  | [] => .ok []
  | .intVal n :: rest =>
    match astype_int rest with
    | .ok l => .ok (n :: l)
    | .error e => .error e
  | .strVal _ :: _ => .error "invalid literal for int"

/-- Body of process_submit up to the outer try/except: deadline gate for
students, name and attachment validation, CSV shape check, id validation,
scoring, classification, and either a teacher report or persistence plus
badge evaluation.  An .error value models an uncaught Python exception
inside the body. -/
def process_submit_body (cfg : Config) (st : BotState) (msg : SubmitMsg)
    (is_teacher : Bool) : Except String (BotState × SubmitResponse) :=
  if ¬is_teacher ∧ cfg.deadline < msg.now then .ok (st, .deadlineExpired)
  else if ¬msg.has_name then .ok (st, .wrongFormat)
  else
    match msg.attachment with
    | none => .ok (st, .missingFile)
    | some att =>
      if ¬(filename_is_csv att.filename) then .ok (st, .notCsv)
      else
        match att.parsed with
        | none => .ok (st, .csvReadError)
        | some csv =>
          if csv.ncols ≠ 1 then .ok (st, .wrongColumns)
          else
            match astype_int csv.col0 with
            | .error e => .error e
            | .ok ids =>
              let pred := ids.toFinset
              let invalid := pred \ all_ids cfg.master
              if invalid.Nonempty then .ok (st, .invalidIds invalid.card)
              else
                let results := calculate_scores cfg.gain cfg.master pred
                match get_threshold_category cfg.thresholds
                    results.1.score with
                | none => .error "list index out of range"
                | some cat =>
                  if is_teacher then
                    .ok (st, .teacherReport results.1 results.2 cat pred.card)
                  else
                    let sub : Submission :=
                      ⟨st.next_id, msg.sender_id, msg.sender_email,
                        msg.sender_full_name, msg.submission_name, msg.now,
                        att.checksum, att.filename, results.1.score,
                        results.2.score, results.2.tp, results.2.tn,
                        results.2.fp, results.2.fn, pred.card, cat, false⟩
                    let subs2 := st.submissions ++ [sub]
                    let cnt := subs2.countP
                      (fun s => decide (s.user_id = msg.sender_id))
                    let awarded := check_and_award_badges cfg.thresholds
                      subs2 st.badges msg.sender_id cnt results.1.score
                      false msg.now
                    .ok (⟨subs2, awarded.1, st.next_id + 1⟩,
                      .submitOk st.next_id results.1.score pred.card
                        awarded.2)

/-- Embedding of process_submit: the body wrapped in the try/except that
turns any uncaught exception into an error response, leaving the store
unchanged. -/
def process_submit (cfg : Config) (st : BotState) (msg : SubmitMsg)
    (is_teacher : Bool) : BotState × SubmitResponse :=
  match process_submit_body cfg st msg is_teacher with
  | .ok r => r
  | .error e => (st, .processingError e)

/-- Sequential service loop over submit commands, as driven by
call_on_each_message: each command yields exactly one response and the
resulting state feeds the next command. -/
def run_submits (cfg : Config) (st : BotState) :
    List (SubmitMsg × Bool) → BotState × List SubmitResponse
  | [] => (st, [])
  | m :: rest =>
    let step := process_submit cfg st m.1 m.2
    let tail := run_submits cfg step.1 rest
    (tail.1, step.2 :: tail.2)

/-- C8 (amended): a submit command from a non-instructor arriving STRICTLY
after the deadline terminates immediately with the deadline-expired
response and leaves the store untouched, whatever the message contents;
instructor submits are processed without any deadline check (the outcome
does not depend on the configured deadline at all).  At an arrival time
exactly equal to the deadline the workflow proceeds (see the
counterexample). -/
theorem process_submit_deadline_gate (cfg : Config) (st : BotState)
    (msg : SubmitMsg) (h : cfg.deadline < msg.now) :
    process_submit cfg st msg false = (st, SubmitResponse.deadlineExpired) ∧
      ∀ d : ℚ, process_submit { cfg with deadline := d } st msg true =
        process_submit cfg st msg true := by
  constructor
  · unfold process_submit process_submit_body
    rw [if_pos ⟨by simp, h⟩]
  · intro d
    unfold process_submit process_submit_body
    rw [if_neg (by simp : ¬(¬true ∧
        ({ cfg with deadline := d } : Config).deadline < msg.now)),
      if_neg (by simp : ¬(¬true ∧ cfg.deadline < msg.now))]

/-- C8 witness: with deadline 100 a student submit at time 101 is
rejected unchanged. -/
theorem process_submit_deadline_gate_witness :
    process_submit ⟨100, ⟨1, 1, -1, -1⟩, [⟨0, "basic"⟩],
        [⟨1, 1, "public"⟩, ⟨2, 0, "private"⟩], []⟩ ⟨[], [], 1⟩
      ⟨7, "u@x", "U", true, "m",
        some ⟨"a.csv", "chk", some ⟨1, [.intVal 1]⟩⟩, 101⟩ false =
      (⟨[], [], 1⟩, SubmitResponse.deadlineExpired) :=
  (process_submit_deadline_gate
    ⟨100, ⟨1, 1, -1, -1⟩, [⟨0, "basic"⟩],
      [⟨1, 1, "public"⟩, ⟨2, 0, "private"⟩], []⟩ ⟨[], [], 1⟩
    ⟨7, "u@x", "U", true, "m",
      some ⟨"a.csv", "chk", some ⟨1, [.intVal 1]⟩⟩, 101⟩
    (by decide)).1

/-- C8 counterexample: a student submit arriving exactly AT the deadline
(time not before the deadline) is not rejected by the gate: the workflow
proceeds into validation and answers with the format error of its missing
submission name instead of the deadline-expired response. -/
theorem process_submit_deadline_counterexample :
    (process_submit ⟨100, ⟨1, 1, -1, -1⟩, [⟨0, "basic"⟩],
          [⟨1, 1, "public"⟩, ⟨2, 0, "private"⟩], []⟩ ⟨[], [], 1⟩
        ⟨7, "u@x", "U", false, "", none, 100⟩ false).2 =
        SubmitResponse.wrongFormat ∧
      SubmitResponse.wrongFormat ≠ SubmitResponse.deadlineExpired ∧
      ¬((100 : ℚ) < 100) := by
  refine ⟨by decide, by decide, by decide⟩

/-- C9: an exception raised inside the submit workflow body is caught at
the workflow boundary and converted into an error response with the store
unchanged, so nothing propagates to the transport layer, and the service
loop answers every inbound submit command with exactly one response. -/
theorem process_submit_error_containment (cfg : Config) :
    (∀ (st : BotState) (msg : SubmitMsg) (t : Bool) (e : String),
      process_submit_body cfg st msg t = .error e →
      process_submit cfg st msg t = (st, .processingError e)) ∧
      (∀ (st : BotState) (msgs : List (SubmitMsg × Bool)),
        (run_submits cfg st msgs).2.length = msgs.length) := by
  constructor
  · intro st msg t e he
    unfold process_submit
    rw [he]
  · intro st msgs
    induction msgs generalizing st with
    | nil => rfl
    | cons m rest ih =>
      unfold run_submits
      simp only [List.length_cons]
      rw [ih]

/-- C9 witness: a CSV with a non-numeric cell makes the body raise like
astype(int); the caught result is the error response with the state
unchanged. -/
theorem process_submit_error_containment_witness :
    process_submit ⟨100, ⟨1, 1, -1, -1⟩, [⟨0, "basic"⟩],
        [⟨1, 1, "public"⟩, ⟨2, 0, "private"⟩], []⟩ ⟨[], [], 1⟩
      ⟨7, "u@x", "U", true, "m",
        some ⟨"a.csv", "chk", some ⟨1, [.strVal "oops"]⟩⟩, 50⟩ false =
      (⟨[], [], 1⟩, .processingError "invalid literal for int") :=
  (process_submit_error_containment
    ⟨100, ⟨1, 1, -1, -1⟩, [⟨0, "basic"⟩],
      [⟨1, 1, "public"⟩, ⟨2, 0, "private"⟩], []⟩).1 ⟨[], [], 1⟩
    ⟨7, "u@x", "U", true, "m",
      some ⟨"a.csv", "chk", some ⟨1, [.strVal "oops"]⟩⟩, 50⟩ false
    "invalid literal for int" (by rfl)

/-- Response of the select command. -/
inductive SelectResponse where
  | notFound
  | selectedFirst (sid : ℤ)
  | selectedOk (sid : ℤ)
deriving DecidableEq

/-- Embedding of process_select including its badge side effect: on
success the selection is applied, and when the user has no
first_model_selection badge yet, badge evaluation is invoked with
submissionCount 0 and publicScore 0. -/
def process_select (cfg : Config) (st : BotState) (uid sid : ℤ)
    (now : ℚ) : BotState × SelectResponse :=
  if (select st.submissions uid sid).2 then
    if st.badges.countP (fun b => decide (b.user_id = uid ∧
        b.badge_name = "first_model_selection")) = 0 then
      (⟨(select st.submissions uid sid).1,
        (check_and_award_badges cfg.thresholds
          (select st.submissions uid sid).1 st.badges uid 0 0 true now).1,
        st.next_id⟩, .selectedFirst sid)
    else
      (⟨(select st.submissions uid sid).1, st.badges, st.next_id⟩,
        .selectedOk sid)
  else (st, .notFound)

theorem mem_badges_to_award_top5 (thresholds : List Threshold)
    (subs : List Submission) (uid : ℤ)
    (hfew : subs.countP (fun s =>
      decide ((0 : ℚ) < s.public_score ∧ s.is_selected)) + 1 ≤ 5) :
    "top_5_public" ∈ badges_to_award thresholds subs uid 0 0 true := by
  unfold badges_to_award
  refine List.mem_append.mpr (Or.inl (List.mem_append.mpr (Or.inr ?_)))
  rw [if_pos hfew]
  exact List.mem_singleton.mpr rfl

/-- C10: on a user's first-ever successful selection, the select command
invokes badge evaluation with submissionCount 0 and publicScore 0, and
whenever fewer than 5 selected submissions in the store have a public
score strictly greater than 0, the user also earns top_5_public through
that select command. -/
theorem process_select_top5_from_zero_score (cfg : Config) (st : BotState)
    (uid sid : ℤ) (now : ℚ)
    (hfound : (select st.submissions uid sid).2 = true)
    (hfirst : st.badges.countP (fun b => decide (b.user_id = uid ∧
      b.badge_name = "first_model_selection")) = 0)
    (hfew : (select st.submissions uid sid).1.countP (fun s =>
      decide ((0 : ℚ) < s.public_score ∧ s.is_selected)) + 1 ≤ 5)
    (hnotop : (st.badges.any (fun b => decide (b.user_id = uid ∧
      b.badge_name = "top_5_public"))) = false) :
    (process_select cfg st uid sid now).1.badges =
        (check_and_award_badges cfg.thresholds
          (select st.submissions uid sid).1 st.badges uid 0 0 true now).1 ∧
      "top_5_public" ∈ (check_and_award_badges cfg.thresholds
        (select st.submissions uid sid).1 st.badges uid 0 0 true now).2 ∧
      (process_select cfg st uid sid now).1.badges.any (fun b =>
        decide (b.user_id = uid ∧ b.badge_name = "top_5_public")) = true := by
  have hstep : process_select cfg st uid sid now =
      (⟨(select st.submissions uid sid).1,
        (check_and_award_badges cfg.thresholds
          (select st.submissions uid sid).1 st.badges uid 0 0 true now).1,
        st.next_id⟩, .selectedFirst sid) := by
    unfold process_select
    rw [hfound]
    rw [if_pos rfl, if_pos hfirst]
  have hmem := mem_badges_to_award_top5 cfg.thresholds
    (select st.submissions uid sid).1 uid hfew
  have hnew : "top_5_public" ∈ (check_and_award_badges cfg.thresholds
      (select st.submissions uid sid).1 st.badges uid 0 0 true now).2 := by
    unfold check_and_award_badges
    rw [award_badges_new st.badges uid now _
      (badges_to_award_nodup cfg.thresholds
        (select st.submissions uid sid).1 uid 0 0 true)]
    refine List.mem_filter.mpr ⟨hmem, ?_⟩
    rw [hnotop]
    rfl
  refine ⟨by rw [hstep], hnew, ?_⟩
  rw [hstep]
  show ((check_and_award_badges cfg.thresholds
    (select st.submissions uid sid).1 st.badges uid 0 0 true now).1).any
      (fun b => decide (b.user_id = uid ∧
        b.badge_name = "top_5_public")) = true
  unfold check_and_award_badges
  rw [award_badges_store]
  refine List.any_eq_true.mpr ⟨⟨uid, "top_5_public", now⟩, ?_, by simp⟩
  refine List.mem_append.mpr (Or.inr ?_)
  refine List.mem_map.mpr ⟨"top_5_public", ?_, rfl⟩
  show "top_5_public" ∈ (award_badges st.badges uid now
    (badges_to_award cfg.thresholds (select st.submissions uid sid).1
      uid 0 0 true)).2
  exact hnew

/-- C10 witness: one unselected submission with positive public score;
its first selection awards top_5_public through the constant score 0. -/
theorem process_select_top5_from_zero_score_witness :
    (process_select ⟨100, ⟨1, 1, -1, -1⟩,
        [⟨100, "excellent"⟩, ⟨50, "good"⟩, ⟨0, "basic"⟩], [], []⟩
      ⟨[mkSub 1 7 10 20 false], [], 2⟩ 7 1 0).1.badges.any (fun b =>
        decide (b.user_id = 7 ∧ b.badge_name = "top_5_public")) = true :=
  (process_select_top5_from_zero_score ⟨100, ⟨1, 1, -1, -1⟩,
      [⟨100, "excellent"⟩, ⟨50, "good"⟩, ⟨0, "basic"⟩], [], []⟩
    ⟨[mkSub 1 7 10 20 false], [], 2⟩ 7 1 0
    (by decide) (by decide) (by decide) (by decide)).2.2

/-- C2 counterexample: with the thresholds configured in ascending order,
a score below every min_score yields the category of the configured-last
threshold (min_score 100, excellent), not the category of the threshold
with the lowest min_score (basic). -/
theorem get_threshold_category_counterexample :
    get_threshold_category [⟨0, "basic"⟩, ⟨100, "excellent"⟩] (-10) =
        some "excellent" ∧
      (∀ t ∈ ([⟨0, "basic"⟩, ⟨100, "excellent"⟩] : List Threshold),
        (-10 : ℚ) < t.min_score) ∧
      (∀ t ∈ ([⟨0, "basic"⟩, ⟨100, "excellent"⟩] : List Threshold),
        (0 : ℚ) ≤ t.min_score) ∧
      "excellent" ≠ "basic" := by
  refine ⟨?_, by decide, by decide, by decide⟩
  rfl

end Oraculus
